import Mathlib

/-!
Formal model of the lineup-shift derivation engine implemented in
src/nba.py inside the function get_lineup_shifts (lines 1240-1457):
the clock parser, the lineup tracker, the shift extractor, the game
selector and the shift aggregator.  Python strings are modelled as
lists of characters, Python floats as rationals, Python ints as
integers, Python sets as finite sets.
-/

namespace NbaShifts

/-! ## Clock parser (parse_clock, src/nba.py lines 1310-1319) -/

def isDigitChar (c : Char) : Bool := decide ('0' ≤ c) && decide (c ≤ '9')

def digitVal (c : Char) : ℕ := c.toNat - '0'.toNat

/-- Numeric value of a digit string, most significant digit first. -/
def natOfDigits (cs : List Char) : ℕ := cs.foldl (fun a c => 10 * a + digitVal c) 0

/-- Model of Python str.split(sep) for a one-character separator. -/
def splitOnChar (sep : Char) : List Char → List (List Char)
  | [] => [[]]
  | c :: rest =>
    if c = sep then [] :: splitOnChar sep rest
    else
      match splitOnChar sep rest with
      | [] => [[c]]
      | h :: t => (c :: h) :: t

/-- Model of Python int(str) on the sign-and-digits fragment of its grammar
(whitespace, underscores and other bases are never produced by the feed). -/
def parseIntChars (cs : List Char) : Option ℤ :=
  match cs with
  | [] => none
  | c :: rest =>
    if c = '-' then
      if rest ≠ [] ∧ rest.all isDigitChar then some (-(natOfDigits rest : ℤ)) else none
    else if c = '+' then
      if rest ≠ [] ∧ rest.all isDigitChar then some ((natOfDigits rest : ℤ)) else none
    else if (c :: rest).all isDigitChar then some ((natOfDigits (c :: rest) : ℤ)) else none

/-- Model of Python float(str) on unsigned decimal literals: digits with at
most one decimal point and at least one digit overall. -/
def parseUnsignedDecimal (cs : List Char) : Option ℚ :=
  match splitOnChar '.' cs with
  | [a] => if a ≠ [] ∧ a.all isDigitChar then some ((natOfDigits a : ℚ)) else none
  | [a, b] =>
    if (a ≠ [] ∨ b ≠ []) ∧ a.all isDigitChar ∧ b.all isDigitChar then
      some ((natOfDigits a : ℚ) + (natOfDigits b : ℚ) / 10 ^ b.length)
    else none
  | _ => none

/-- Model of Python float(str) including an optional leading sign. -/
def parseDecChars (cs : List Char) : Option ℚ :=
  match cs with
  | [] => none
  | c :: rest =>
    if c = '-' then (parseUnsignedDecimal rest).map (fun q => -q)
    else if c = '+' then parseUnsignedDecimal rest
    else parseUnsignedDecimal (c :: rest)

/-- Characters kept by the replace call that strips every S character
from the seconds field (src/nba.py line 1316). -/
def notS (c : Char) : Bool := decide (c ≠ 'S')

/-- Body of parse_clock after the mandatory PT marker has been removed:
split on M into exactly two parts, read the minutes with int(), strip every
S character from the second part and read it with float(); any failure
yields 0. -/
def parseClockBody (body : List Char) : ℚ :=
  match splitOnChar 'M' body with
  | [a, b] =>
    match parseIntChars a, parseDecChars (b.filter notS) with
    | some m, some s => (m : ℚ) * 60 + s
    | _, _ => 0
  | _ => 0

/-- Model of parse_clock (src/nba.py lines 1310-1319): empty strings and
strings that do not start with PT give 0; otherwise the PT marker is
dropped and the body is parsed, every failure giving 0. -/
def parse_clock : List Char → ℚ
  | [] => 0
  | [_] => 0
  | c1 :: c2 :: body => if c1 = 'P' ∧ c2 = 'T' then parseClockBody body else 0

/-- Strings of the exact shape PT<MM>M<SS.ss>S: nonempty digit strings for
the minutes, the integer seconds and the fractional seconds. -/
def ValidClockStr (cs : List Char) : Prop :=
  ∃ mm ip fp : List Char,
    mm ≠ [] ∧ mm.all isDigitChar ∧ ip ≠ [] ∧ ip.all isDigitChar ∧
    fp ≠ [] ∧ fp.all isDigitChar ∧
    cs = 'P' :: 'T' :: (mm ++ 'M' :: (ip ++ '.' :: (fp ++ ['S'])))

/-! ## Data model (src/nba.py lines 1338-1398) -/

/-- Shift record exactly as assembled at src/nba.py lines 1368-1378. -/
structure Shift where
  game_id : String
  game_date : String
  opponent : String
  is_home : Bool
  period : ℕ
  duration_secs : ℚ
  plus_minus : ℤ
  team_pts_scored : ℤ
  team_pts_allowed : ℤ
  deriving DecidableEq, Repr, Inhabited

/-- Fields of one play-by-play action consulted by the extraction loop. -/
structure Action where
  teamTricode : String
  actionType : String
  subType : String
  personId : ℕ
  clock : List Char
  period : ℕ
  scoreHome : ℤ
  scoreAway : ℤ
  deriving DecidableEq, Repr

/-- Per-game constants of the extraction loop: the tracked team, its
home/away flag, game metadata and the target five-player set. -/
structure GameCtx where
  team_abbrev : String
  is_home : Bool
  game_id : String
  game_date : String
  opponent : String
  target_lineup : Finset ℕ
  deriving DecidableEq

/-- Mutable state of the extraction loop (src/nba.py lines 1350-1354 and
the accumulating all_shifts list). -/
structure ExtractState where
  current_lineup : Finset ℕ
  shift_start_score_team : ℤ
  shift_start_score_opp : ℤ
  shift_start_period : ℕ
  shift_start_clock : List Char
  all_shifts : List Shift
  deriving DecidableEq

/-! ## Lineup tracker (src/nba.py lines 1383-1387) -/

/-- Lineup update on a substitution: discard on out, add on in, anything
else leaves the set unchanged (Python set.discard / set.add semantics). -/
def applySubToLineup (lineup : Finset ℕ) (subKind : String) (personId : ℕ) : Finset ℕ :=
  if subKind = "out" then lineup.erase personId
  else if subKind = "in" then insert personId lineup
  else lineup

/-! ## Shift extractor (src/nba.py lines 1356-1392) -/

def eventScoreTeam (ctx : GameCtx) (a : Action) : ℤ :=
  if ctx.is_home then a.scoreHome else a.scoreAway

def eventScoreOpp (ctx : GameCtx) (a : Action) : ℤ :=
  if ctx.is_home then a.scoreAway else a.scoreHome

/-- Duration measured from the shift-open snapshot to the current event,
as computed at src/nba.py line 1366. -/
def measuredDuration (st : ExtractState) (a : Action) : ℚ :=
  parse_clock st.shift_start_clock - parse_clock a.clock

/-- Point differential measured from the shift-open snapshot to the
current event, as computed at src/nba.py line 1375. -/
def measuredPlusMinus (ctx : GameCtx) (st : ExtractState) (a : Action) : ℤ :=
  (eventScoreTeam ctx a - st.shift_start_score_team) -
    (eventScoreOpp ctx a - st.shift_start_score_opp)

/-- Shift record built at a tracked substitution event, before the
duration/differential guard decides whether it is kept. -/
def mkShift (ctx : GameCtx) (st : ExtractState) (a : Action) : Shift :=
  { game_id := ctx.game_id
    game_date := ctx.game_date
    opponent := ctx.opponent
    is_home := ctx.is_home
    period := st.shift_start_period
    duration_secs := max 0 (measuredDuration st a)
    plus_minus := measuredPlusMinus ctx st a
    team_pts_scored := eventScoreTeam ctx a - st.shift_start_score_team
    team_pts_allowed := eventScoreOpp ctx a - st.shift_start_score_opp }

/-- One iteration of the extraction loop body (src/nba.py lines
1356-1392).  Actions that are not substitutions of the tracked team are
skipped entirely.  At a tracked substitution the shift is emitted using
the lineup held before the substitution, then the substitution is
applied and the shift-open snapshot is reset to the current event. -/
def stepAction (ctx : GameCtx) (st : ExtractState) (a : Action) : ExtractState :=
  if a.teamTricode = ctx.team_abbrev ∧ a.actionType = "substitution" then
    { current_lineup := applySubToLineup st.current_lineup a.subType a.personId
      shift_start_score_team := eventScoreTeam ctx a
      shift_start_score_opp := eventScoreOpp ctx a
      shift_start_period := a.period
      shift_start_clock := a.clock
      all_shifts :=
        if st.current_lineup = ctx.target_lineup ∧
            (0 < measuredDuration st a ∨ measuredPlusMinus ctx st a ≠ 0) then
          st.all_shifts ++ [mkShift ctx st a]
        else st.all_shifts }
  else st

/-- Initial extraction state for one game (src/nba.py lines 1350-1354):
the starters are on court, the snapshot is period 1, full clock, 0-0. -/
def initState (starters : Finset ℕ) : ExtractState :=
  { current_lineup := starters
    shift_start_score_team := 0
    shift_start_score_opp := 0
    shift_start_period := 1
    shift_start_clock := ['P', 'T', '1', '2', 'M', '0', '0', '.', '0', '0', 'S']
    all_shifts := [] }

/-- Extraction of one game's shifts: fold of the loop body over the
ordered action stream. -/
def extractShifts (ctx : GameCtx) (starters : Finset ℕ) (actions : List Action) : ExtractState :=
  actions.foldl (stepAction ctx) (initState starters)

/-! ## Game selector (src/nba.py lines 1283-1287) -/

/-- Intersection of the players' game-identifier sets, modelling
set.intersection over the five per-player sets. -/
def commonGames : List (Finset ℕ) → Finset ℕ
  | [] => ∅
  | s :: rest => rest.foldl (fun a b => a ∩ b) s

/-- Game selection step: an empty intersection is reported as a
structured error value, a nonempty one is returned to the caller. -/
def gameSelector (playerGames : List (Finset ℕ)) : Except String (Finset ℕ) :=
  if commonGames playerGames = ∅ then
    Except.error "No games found where all 5 players played together"
  else Except.ok (commonGames playerGames)

/-! ## Shift aggregator (src/nba.py lines 1409-1450) -/

/-- Model of Python round(x, d) for d decimal places.  Mathlib round is
round-half-up while Python rounds half to even; the two agree off exact
ties, and no value rounded in this development is an exact tie. -/
def roundTo (q : ℚ) (d : ℕ) : ℚ := ((round (q * 10 ^ d) : ℤ) : ℚ) / 10 ^ d

/-- Summary block assembled at src/nba.py lines 1442-1450. -/
structure ShiftSummary where
  total_shifts : ℕ
  positive_shifts : ℕ
  negative_shifts : ℕ
  even_shifts : ℕ
  pct_positive : ℚ
  total_plus_minus : ℤ
  total_duration_mins : ℚ
  deriving DecidableEq, Repr

/-- Summary statistics over the accumulated shift list (src/nba.py lines
1409-1413 and 1442-1450), including the empty-list guard on the
percentage. -/
def buildSummary (shifts : List Shift) : ShiftSummary :=
  { total_shifts := shifts.length
    positive_shifts := shifts.countP (fun s => decide (0 < s.plus_minus))
    negative_shifts := shifts.countP (fun s => decide (s.plus_minus < 0))
    even_shifts := shifts.countP (fun s => decide (s.plus_minus = 0))
    pct_positive :=
      if shifts = [] then 0
      else roundTo (((shifts.countP (fun s => decide (0 < s.plus_minus)) : ℚ) /
        shifts.length) * 100) 1
    total_plus_minus := (shifts.map Shift.plus_minus).sum
    total_duration_mins := roundTo ((shifts.map Shift.duration_secs).sum / 60) 1 }

/-- Per-opponent accumulator entry (src/nba.py line 1420). -/
structure OppStat where
  shifts : ℕ
  plus_minus : ℤ
  positive : ℕ
  negative : ℕ
  deriving DecidableEq, Repr

/-- Increments applied to one opponent's accumulator for one shift
(src/nba.py lines 1421-1426). -/
def bumpOpp (st : OppStat) (s : Shift) : OppStat :=
  { shifts := st.shifts + 1
    plus_minus := st.plus_minus + s.plus_minus
    positive := st.positive + (if 0 < s.plus_minus then 1 else 0)
    negative := st.negative + (if s.plus_minus < 0 then 1 else 0) }

/-- Record one shift into the per-opponent table, modelling the Python
dict (keyed by opponent, insertion ordered) at src/nba.py lines
1417-1426. -/
def addShiftToStats : List (String × OppStat) → Shift → List (String × OppStat)
  | [], s => [(s.opponent, bumpOpp ⟨0, 0, 0, 0⟩ s)]
  | (o, st) :: rest, s =>
    if o = s.opponent then (o, bumpOpp st s) :: rest
    else (o, st) :: addShiftToStats rest s

/-- Per-opponent table over the whole shift list. -/
def oppStats (shifts : List Shift) : List (String × OppStat) :=
  shifts.foldl addShiftToStats []

/-- Entry of the by_opponent list (src/nba.py lines 1432-1437). -/
structure OppEntry where
  opponent : String
  shifts : ℕ
  plus_minus : ℤ
  pct_positive : ℚ
  deriving DecidableEq, Repr

/-- The by_opponent list: the per-opponent table sorted ascending by
summed differential (Python sorted is stable; insertion sort with a
non-strict key comparison has the same behaviour), each entry carrying
its rounded positive percentage (src/nba.py lines 1428-1437). -/
def byOpponent (shifts : List Shift) : List OppEntry :=
  (List.insertionSort (fun x y => x.2.plus_minus ≤ y.2.plus_minus) (oppStats shifts)).map
    (fun p =>
      { opponent := p.1
        shifts := p.2.shifts
        plus_minus := p.2.plus_minus
        pct_positive :=
          roundTo (if 0 < p.2.shifts then ((p.2.positive : ℚ) / p.2.shifts) * 100 else 0) 0 })

/-! ## Batch driver (src/nba.py lines 1321-1398 and 1439-1454) -/

/-- Outcome of processing one candidate game: the shifts appended to the
global list before any failure, and the error message recorded by the
per-game exception handler when the game failed. -/
structure GameOutcome where
  shifts : List Shift
  err : Option String
  deriving DecidableEq, Repr

/-- The per-game loop (src/nba.py lines 1321-1398): every game is
processed; a failed game contributes its error message and processing
continues with the next game. -/
def runGames (games : List GameOutcome) : List Shift × List String :=
  games.foldl (fun acc g => (acc.1 ++ g.shifts, acc.2 ++ g.err.toList)) ([], [])

/-- Error list as reported to the caller (src/nba.py lines 1405 and
1453): capped at the first five messages, with None standing for the
absence of errors. -/
def reportedErrors (errors : List String) : Option (List String) :=
  if errors = [] then none else some (errors.take 5)

/-! ## Concrete inputs used in witnesses and counterexamples -/

def cexCtx : GameCtx :=
  { team_abbrev := "BOS", is_home := true, game_id := "0022600001"
    game_date := "2026-01-01", opponent := "NYK", target_lineup := {1, 2, 3, 4, 5} }

/-- Tracked-team substitution late in period 1, no scoring yet. -/
def cexA1 : Action :=
  { teamTricode := "BOS", actionType := "substitution", subType := "in", personId := 1
    clock := ['P', 'T', '0', '0', 'M', '3', '0', '.', '0', '0', 'S']
    period := 1, scoreHome := 0, scoreAway := 0 }

/-- Tracked-team substitution early in period 2 after a 3-0 run: the
clock difference to the snapshot is negative. -/
def cexA2 : Action :=
  { teamTricode := "BOS", actionType := "substitution", subType := "in", personId := 2
    clock := ['P', 'T', '1', '0', 'M', '0', '0', '.', '0', '0', 'S']
    period := 2, scoreHome := 3, scoreAway := 0 }

def synthCtx : GameCtx :=
  { team_abbrev := "BOS", is_home := true, game_id := "0022600002"
    game_date := "2026-01-02", opponent := "MIA", target_lineup := {1, 2, 3, 4, 5} }

/-- First substitution of the synthetic game: at clock 0 of period 1,
after 10 unanswered points, player 1 goes out. -/
def synthA1 : Action :=
  { teamTricode := "BOS", actionType := "substitution", subType := "out", personId := 1
    clock := ['P', 'T', '0', '0', 'M', '0', '0', '.', '0', '0', 'S']
    period := 1, scoreHome := 10, scoreAway := 0 }

/-- Second substitution of the synthetic game: player 6 comes in during
period 2. -/
def synthA2 : Action :=
  { teamTricode := "BOS", actionType := "substitution", subType := "in", personId := 6
    clock := ['P', 'T', '1', '1', 'M', '0', '0', '.', '0', '0', 'S']
    period := 2, scoreHome := 10, scoreAway := 0 }

/-- The single shift produced by the synthetic game. -/
def synthShift : Shift :=
  { game_id := "0022600002", game_date := "2026-01-02", opponent := "MIA", is_home := true
    period := 1, duration_secs := 720, plus_minus := 10
    team_pts_scored := 10, team_pts_allowed := 0 }

/-- Three shifts with differentials +5, -3, 0 across two opponents. -/
def exampleShifts : List Shift :=
  [{ game_id := "0022600003", game_date := "2026-01-03", opponent := "NYK", is_home := true
     period := 1, duration_secs := 300, plus_minus := 5
     team_pts_scored := 9, team_pts_allowed := 4 },
   { game_id := "0022600003", game_date := "2026-01-03", opponent := "NYK", is_home := true
     period := 2, duration_secs := 200, plus_minus := -3
     team_pts_scored := 2, team_pts_allowed := 5 },
   { game_id := "0022600004", game_date := "2026-01-05", opponent := "MIA", is_home := false
     period := 1, duration_secs := 100, plus_minus := 0
     team_pts_scored := 4, team_pts_allowed := 4 }]

/-- Five per-player game-identifier sets sharing exactly three games. -/
def gamesP1 : Finset ℕ := {10, 20, 30, 41}
def gamesP2 : Finset ℕ := {10, 20, 30, 42}
def gamesP3 : Finset ℕ := {10, 20, 30, 43}
def gamesP4 : Finset ℕ := {10, 20, 30, 44}
def gamesP5 : Finset ℕ := {10, 20, 30, 45}

/-- Batch outcomes: two successful games around one failed game. -/
def exampleOutcomes : List GameOutcome :=
  [{ shifts := [synthShift], err := none },
   { shifts := [], err := some "Game 0022600005: timeout" },
   { shifts := exampleShifts, err := none }]

/-! ## Lemmas about the clock parser -/

theorem splitOnChar_ne_nil (sep : Char) (l : List Char) : splitOnChar sep l ≠ [] := by
  cases l with
  | nil => simp [splitOnChar]
  | cons c rest =>
    simp only [splitOnChar]
    split
    · simp
    · split
      · simp
      · simp

theorem splitOnChar_of_not_mem (sep : Char) (l : List Char) (h : ∀ c ∈ l, c ≠ sep) :
    splitOnChar sep l = [l] := by
  induction l with
  | nil => rfl
  | cons c rest ih =>
    have hc : c ≠ sep := h c (by simp)
    have hr : splitOnChar sep rest = [rest] := ih (fun x hx => h x (by simp [hx]))
    simp [splitOnChar, hc, hr]

theorem splitOnChar_append (sep : Char) (a b : List Char) (h : ∀ c ∈ a, c ≠ sep) :
    splitOnChar sep (a ++ sep :: b) = a :: splitOnChar sep b := by
  induction a with
  | nil => simp [splitOnChar]
  | cons c rest ih =>
    have hc : c ≠ sep := h c (by simp)
    have hr : splitOnChar sep (rest ++ sep :: b) = rest :: splitOnChar sep b :=
      ih (fun x hx => h x (by simp [hx]))
    simp [splitOnChar, hc, hr]

theorem isDigitChar_ne (c d : Char) (hc : isDigitChar c = true) (hd : isDigitChar d = false) :
    c ≠ d := by
  intro h
  rw [h] at hc
  rw [hc] at hd
  exact absurd hd (by decide)

theorem parseIntChars_digits (cs : List Char) (hne : cs ≠ []) (hd : cs.all isDigitChar) :
    parseIntChars cs = some ((natOfDigits cs : ℤ)) := by
  cases cs with
  | nil => exact absurd rfl hne
  | cons c rest =>
    have hc : isDigitChar c = true := by
      have := List.all_eq_true.mp hd c (by simp)
      exact this
    have hminus : c ≠ '-' := isDigitChar_ne c '-' hc (by decide)
    have hplus : c ≠ '+' := isDigitChar_ne c '+' hc (by decide)
    simp [parseIntChars, hminus, hplus, hd]

theorem parseUnsignedDecimal_digits (ip fp : List Char) (hip : ip ≠ [])
    (hipd : ip.all isDigitChar) (hfpd : fp.all isDigitChar) :
    parseUnsignedDecimal (ip ++ '.' :: fp) =
      some ((natOfDigits ip : ℚ) + (natOfDigits fp : ℚ) / 10 ^ fp.length) := by
  have hnotdot : ∀ c ∈ ip, c ≠ '.' := by
    intro c hc
    exact isDigitChar_ne c '.' (List.all_eq_true.mp hipd c hc) (by decide)
  have hfpnotdot : ∀ c ∈ fp, c ≠ '.' := by
    intro c hc
    exact isDigitChar_ne c '.' (List.all_eq_true.mp hfpd c hc) (by decide)
  have hsplit : splitOnChar '.' (ip ++ '.' :: fp) = ip :: splitOnChar '.' fp :=
    splitOnChar_append '.' ip fp hnotdot
  have hfp : splitOnChar '.' fp = [fp] := splitOnChar_of_not_mem '.' fp hfpnotdot
  simp [parseUnsignedDecimal, hsplit, hfp, hip, hipd, hfpd]

theorem parseDecChars_digits (ip fp : List Char) (hip : ip ≠ [])
    (hipd : ip.all isDigitChar) (hfpd : fp.all isDigitChar) :
    parseDecChars (ip ++ '.' :: fp) =
      some ((natOfDigits ip : ℚ) + (natOfDigits fp : ℚ) / 10 ^ fp.length) := by
  cases ip with
  | nil => exact absurd rfl hip
  | cons c rest =>
    have hc : isDigitChar c = true := List.all_eq_true.mp hipd c (by simp)
    have hminus : c ≠ '-' := isDigitChar_ne c '-' hc (by decide)
    have hplus : c ≠ '+' := isDigitChar_ne c '+' hc (by decide)
    have := parseUnsignedDecimal_digits (c :: rest) fp (by simp) hipd hfpd
    simp only [List.cons_append, parseDecChars, hminus, hplus, if_neg, if_false]
    simp only [List.cons_append] at this
    simp [hminus, hplus, this]

theorem validClockStr_has_dot {cs : List Char} (h : ValidClockStr cs) : '.' ∈ cs := by
  obtain ⟨mm, ip, fp, -, -, -, -, -, -, rfl⟩ := h
  simp

theorem length_splitOnChar (sep : Char) (l : List Char) :
    (splitOnChar sep l).length = l.count sep + 1 := by
  induction l with
  | nil => rfl
  | cons c rest ih =>
    by_cases hc : c = sep
    · subst hc
      simp only [splitOnChar, if_pos rfl, List.length_cons, List.count_cons]
      simp [ih]
    · simp only [splitOnChar, if_neg hc]
      rcases hsplit : splitOnChar sep rest with - | ⟨h, t⟩
      · exact absurd hsplit (splitOnChar_ne_nil sep rest)
      · rw [hsplit] at ih
        simp only [List.length_cons] at ih
        simp only [List.length_cons, List.count_cons]
        have hbeq : (c == sep) = false := by
          simpa using hc
        simp only [hbeq, Bool.false_eq_true, if_false]
        omega

/-- C3 (amended): parse_clock maps every string of the valid shape
PT<MM>M<SS.ss>S to minutes*60 + seconds; it is a total function on
strings and maps to 0 the empty string, every string that does not start
with PT, every PT-string whose body has no M separator, every PT-string
whose body has two or more M separators (the two-way unpacking of the
split raises there), and every PT-string whose minutes field is empty
(int of an empty string raises there). -/
theorem parse_clock_correct :
    (∀ mm ip fp : List Char,
        mm ≠ [] → mm.all isDigitChar → ip ≠ [] → ip.all isDigitChar → fp.all isDigitChar →
        parse_clock ('P' :: 'T' :: (mm ++ 'M' :: (ip ++ '.' :: (fp ++ ['S'])))) =
          (natOfDigits mm : ℚ) * 60 +
            ((natOfDigits ip : ℚ) + (natOfDigits fp : ℚ) / 10 ^ fp.length)) ∧
    parse_clock [] = 0 ∧
    (∀ cs : List Char, (∀ body, cs ≠ 'P' :: 'T' :: body) → parse_clock cs = 0) ∧
    (∀ body : List Char, (∀ c ∈ body, c ≠ 'M') → parse_clock ('P' :: 'T' :: body) = 0) ∧
    (∀ body : List Char, 2 ≤ body.count 'M' → parse_clock ('P' :: 'T' :: body) = 0) ∧
    (∀ rest : List Char, (∀ c ∈ rest, c ≠ 'M') →
      parse_clock ('P' :: 'T' :: 'M' :: rest) = 0) := by
  refine ⟨?_, rfl, ?_, ?_, ?_, ?_⟩
  · intro mm ip fp hmm hmmd hip hipd hfpd
    have hmmM : ∀ c ∈ mm, c ≠ 'M' := fun c hc =>
      isDigitChar_ne c 'M' (List.all_eq_true.mp hmmd c hc) (by decide)
    have hrestM : ∀ c ∈ ip ++ '.' :: (fp ++ ['S']), c ≠ 'M' := by
      intro c hc
      rcases List.mem_append.mp hc with h | h
      · exact isDigitChar_ne c 'M' (List.all_eq_true.mp hipd c h) (by decide)
      · rcases List.mem_cons.mp h with h | h
        · subst h; decide
        · rcases List.mem_append.mp h with h | h
          · exact isDigitChar_ne c 'M' (List.all_eq_true.mp hfpd c h) (by decide)
          · simp only [List.mem_singleton] at h
            subst h; decide
    have hsplit : splitOnChar 'M' (mm ++ 'M' :: (ip ++ '.' :: (fp ++ ['S']))) =
        mm :: splitOnChar 'M' (ip ++ '.' :: (fp ++ ['S'])) :=
      splitOnChar_append 'M' mm _ hmmM
    have hrest : splitOnChar 'M' (ip ++ '.' :: (fp ++ ['S'])) =
        [ip ++ '.' :: (fp ++ ['S'])] :=
      splitOnChar_of_not_mem 'M' _ hrestM
    have hipS : ip.filter notS = ip :=
      List.filter_eq_self.mpr (fun c hc => by
        have := isDigitChar_ne c 'S' (List.all_eq_true.mp hipd c hc) (by decide)
        simpa [notS] using this)
    have hfpS : fp.filter notS = fp :=
      List.filter_eq_self.mpr (fun c hc => by
        have := isDigitChar_ne c 'S' (List.all_eq_true.mp hfpd c hc) (by decide)
        simpa [notS] using this)
    have hfil : (ip ++ '.' :: (fp ++ ['S'])).filter notS = ip ++ '.' :: fp := by
      rw [List.filter_append, hipS]
      congr 1
      rw [List.filter_cons_of_pos (by decide), List.filter_append, hfpS]
      simp [notS]
    have hint := parseIntChars_digits mm hmm hmmd
    have hdec := parseDecChars_digits ip fp hip hipd hfpd
    simp [parse_clock, parseClockBody, hsplit, hrest, hfil, hint, hdec]
  · intro cs h
    rcases cs with - | ⟨c1, - | ⟨c2, body⟩⟩
    · rfl
    · rfl
    · have hne : ¬(c1 = 'P' ∧ c2 = 'T') := by
        rintro ⟨rfl, rfl⟩
        exact h body rfl
      simp [parse_clock, hne]
  · intro body h
    have hsplit : splitOnChar 'M' body = [body] := splitOnChar_of_not_mem 'M' body h
    simp [parse_clock, parseClockBody, hsplit]
  · intro body hM
    have hlen : (splitOnChar 'M' body).length = body.count 'M' + 1 :=
      length_splitOnChar 'M' body
    have hpt : parse_clock ('P' :: 'T' :: body) = parseClockBody body := by
      simp [parse_clock]
    rw [hpt]
    unfold parseClockBody
    rcases hsplit : splitOnChar 'M' body with - | ⟨a, - | ⟨b, - | ⟨c, t⟩⟩⟩
    · exact absurd hsplit (splitOnChar_ne_nil 'M' body)
    · rfl
    · rw [hsplit] at hlen
      simp only [List.length_cons, List.length_nil] at hlen
      omega
    · rfl
  · intro rest hrest
    have hsplit : splitOnChar 'M' ('M' :: rest) = [[], rest] := by
      simp [splitOnChar, splitOnChar_of_not_mem 'M' rest hrest]
    have hpt : parse_clock ('P' :: 'T' :: 'M' :: rest) = parseClockBody ('M' :: rest) := by
      simp [parse_clock]
    rw [hpt]
    unfold parseClockBody
    rw [hsplit]
    rfl

/-- Witness for parse_clock_correct at the clock string PT12M03.5S. -/
theorem parse_clock_correct_witness :
    parse_clock ('P' :: 'T' :: (['1', '2'] ++ 'M' :: (['0', '3'] ++ '.' :: (['5'] ++ ['S'])))) =
      (natOfDigits ['1', '2'] : ℚ) * 60 +
        ((natOfDigits ['0', '3'] : ℚ) + (natOfDigits ['5'] : ℚ) /
          10 ^ (['5'] : List Char).length) :=
  parse_clock_correct.1 ['1', '2'] ['0', '3'] ['5'] (by decide) (by decide) (by decide)
    (by decide) (by decide)

/-- C3 counterexample: PT1M2S3S is not of the valid clock shape (it has
no decimal point), yet parse_clock maps it to 83 rather than 0, because
every S character is stripped from the seconds field before parsing. -/
theorem parse_clock_claim_counterexample :
    parse_clock ['P', 'T', '1', 'M', '2', 'S', '3', 'S'] = 83 ∧
    ¬ ValidClockStr ['P', 'T', '1', 'M', '2', 'S', '3', 'S'] := by
  constructor
  · have h1 : splitOnChar 'M' ['1', 'M', '2', 'S', '3', 'S'] = [['1'], ['2', 'S', '3', 'S']] :=
      rfl
    have h2 : List.filter notS ['2', 'S', '3', 'S'] = ['2', '3'] := rfl
    have h3 : parseIntChars ['1'] = some 1 := rfl
    have h4 : parseDecChars ['2', '3'] = some ((23 : ℚ)) := rfl
    norm_num [parse_clock, parseClockBody, h1, h2, h3, h4]
  · intro h
    exact absurd (validClockStr_has_dot h) (by decide)

/-! ## Lineup tracker round trip -/

/-- C4 counterexample: an out event followed by an in event for a player
who was not on court does not restore the lineup — starting from the
empty set the pair of events leaves the player on court. -/
theorem out_in_roundtrip_counterexample :
    applySubToLineup (applySubToLineup (∅ : Finset ℕ) "out" 1) "in" 1 ≠ (∅ : Finset ℕ) := by
  decide

/-- C4 (amended): for every lineup state and every player currently in
the lineup, an out substitution followed by an in substitution for that
player returns the tracker to its original LineupSet. -/
theorem out_in_roundtrip (lineup : Finset ℕ) (p : ℕ) (hp : p ∈ lineup) :
    applySubToLineup (applySubToLineup lineup "out" p) "in" p = lineup := by
  unfold applySubToLineup
  rw [if_pos rfl, if_neg (by decide), if_pos rfl]
  exact Finset.insert_erase hp

/-- Witness for out_in_roundtrip on a concrete five-player lineup. -/
theorem out_in_roundtrip_witness :
    applySubToLineup (applySubToLineup ({1, 2, 3, 4, 5} : Finset ℕ) "out" 3) "in" 3 =
      ({1, 2, 3, 4, 5} : Finset ℕ) :=
  out_in_roundtrip {1, 2, 3, 4, 5} 3 (by decide)

/-! ## Lemmas about the shift extractor -/

theorem stepAction_all_shifts (ctx : GameCtx) (st : ExtractState) (a : Action)
    (hteam : a.teamTricode = ctx.team_abbrev) (hsub : a.actionType = "substitution") :
    (stepAction ctx st a).all_shifts =
      if st.current_lineup = ctx.target_lineup ∧
          (0 < measuredDuration st a ∨ measuredPlusMinus ctx st a ≠ 0) then
        st.all_shifts ++ [mkShift ctx st a]
      else st.all_shifts := by
  unfold stepAction
  rw [if_pos ⟨hteam, hsub⟩]

theorem stepAction_fields (ctx : GameCtx) (st : ExtractState) (a : Action)
    (hteam : a.teamTricode = ctx.team_abbrev) (hsub : a.actionType = "substitution") :
    (stepAction ctx st a).current_lineup =
        applySubToLineup st.current_lineup a.subType a.personId ∧
    (stepAction ctx st a).shift_start_score_team = eventScoreTeam ctx a ∧
    (stepAction ctx st a).shift_start_score_opp = eventScoreOpp ctx a ∧
    (stepAction ctx st a).shift_start_period = a.period ∧
    (stepAction ctx st a).shift_start_clock = a.clock := by
  unfold stepAction
  rw [if_pos ⟨hteam, hsub⟩]
  exact ⟨rfl, rfl, rfl, rfl, rfl⟩

theorem pc720 : parse_clock ['P', 'T', '1', '2', 'M', '0', '0', '.', '0', '0', 'S'] = 720 := by
  have h1 : splitOnChar 'M' ['1', '2', 'M', '0', '0', '.', '0', '0', 'S'] =
      [['1', '2'], ['0', '0', '.', '0', '0', 'S']] := rfl
  have h2 : List.filter notS ['0', '0', '.', '0', '0', 'S'] = ['0', '0', '.', '0', '0'] := rfl
  have h3 : parseIntChars ['1', '2'] = some 12 := rfl
  have h4 : parseDecChars ['0', '0', '.', '0', '0'] = some ((0 : ℚ) + 0 / 10 ^ 2) := rfl
  norm_num [parse_clock, parseClockBody, h1, h2, h3, h4]

theorem pc0 : parse_clock ['P', 'T', '0', '0', 'M', '0', '0', '.', '0', '0', 'S'] = 0 := by
  have h1 : splitOnChar 'M' ['0', '0', 'M', '0', '0', '.', '0', '0', 'S'] =
      [['0', '0'], ['0', '0', '.', '0', '0', 'S']] := rfl
  have h2 : List.filter notS ['0', '0', '.', '0', '0', 'S'] = ['0', '0', '.', '0', '0'] := rfl
  have h3 : parseIntChars ['0', '0'] = some 0 := rfl
  have h4 : parseDecChars ['0', '0', '.', '0', '0'] = some ((0 : ℚ) + 0 / 10 ^ 2) := rfl
  norm_num [parse_clock, parseClockBody, h1, h2, h3, h4]

theorem pc30 : parse_clock ['P', 'T', '0', '0', 'M', '3', '0', '.', '0', '0', 'S'] = 30 := by
  have h1 : splitOnChar 'M' ['0', '0', 'M', '3', '0', '.', '0', '0', 'S'] =
      [['0', '0'], ['3', '0', '.', '0', '0', 'S']] := rfl
  have h2 : List.filter notS ['3', '0', '.', '0', '0', 'S'] = ['3', '0', '.', '0', '0'] := rfl
  have h3 : parseIntChars ['0', '0'] = some 0 := rfl
  have h4 : parseDecChars ['3', '0', '.', '0', '0'] = some ((30 : ℚ) + 0 / 10 ^ 2) := rfl
  norm_num [parse_clock, parseClockBody, h1, h2, h3, h4]

theorem pc600 : parse_clock ['P', 'T', '1', '0', 'M', '0', '0', '.', '0', '0', 'S'] = 600 := by
  have h1 : splitOnChar 'M' ['1', '0', 'M', '0', '0', '.', '0', '0', 'S'] =
      [['1', '0'], ['0', '0', '.', '0', '0', 'S']] := rfl
  have h2 : List.filter notS ['0', '0', '.', '0', '0', 'S'] = ['0', '0', '.', '0', '0'] := rfl
  have h3 : parseIntChars ['1', '0'] = some 10 := rfl
  have h4 : parseDecChars ['0', '0', '.', '0', '0'] = some ((0 : ℚ) + 0 / 10 ^ 2) := rfl
  norm_num [parse_clock, parseClockBody, h1, h2, h3, h4]

/-- C1 (amended): at every tracked-team substitution event, a Shift is
emitted iff the lineup held before the substitution equals the target
and the measured duration is positive or the measured differential is
non-zero; an emitted Shift carries the measured differential and the
measured duration clamped below at zero; and the substitution is applied
to the lineup only after the emission decision (the emission condition
reads the pre-substitution lineup). -/
theorem stepAction_emission (ctx : GameCtx) (st : ExtractState) (a : Action)
    (hteam : a.teamTricode = ctx.team_abbrev) (hsub : a.actionType = "substitution") :
    ((stepAction ctx st a).all_shifts.length = st.all_shifts.length + 1 ↔
      (st.current_lineup = ctx.target_lineup ∧
        (0 < measuredDuration st a ∨ measuredPlusMinus ctx st a ≠ 0))) ∧
    (st.current_lineup = ctx.target_lineup →
      (0 < measuredDuration st a ∨ measuredPlusMinus ctx st a ≠ 0) →
      (stepAction ctx st a).all_shifts = st.all_shifts ++ [mkShift ctx st a] ∧
      (mkShift ctx st a).plus_minus = measuredPlusMinus ctx st a ∧
      (mkShift ctx st a).duration_secs = max 0 (measuredDuration st a)) ∧
    (¬ (st.current_lineup = ctx.target_lineup ∧
        (0 < measuredDuration st a ∨ measuredPlusMinus ctx st a ≠ 0)) →
      (stepAction ctx st a).all_shifts = st.all_shifts) ∧
    (stepAction ctx st a).current_lineup =
      applySubToLineup st.current_lineup a.subType a.personId := by
  have hall := stepAction_all_shifts ctx st a hteam hsub
  have hf := stepAction_fields ctx st a hteam hsub
  by_cases h : st.current_lineup = ctx.target_lineup ∧
      (0 < measuredDuration st a ∨ measuredPlusMinus ctx st a ≠ 0)
  · rw [if_pos h] at hall
    refine ⟨⟨fun _ => h, fun _ => by rw [hall]; simp⟩,
      fun _ _ => ⟨hall, rfl, rfl⟩, fun hc => absurd h hc, hf.1⟩
  · rw [if_neg h] at hall
    refine ⟨⟨fun hlen => ?_, fun hc => absurd hc h⟩,
      fun h1 h2 => absurd ⟨h1, h2⟩ h, fun _ => hall, hf.1⟩
    rw [hall] at hlen
    omega

/-- Witness for stepAction_emission: at the first substitution of the
counterexample game the shift list grows by one. -/
theorem stepAction_emission_witness :
    (stepAction cexCtx (initState {1, 2, 3, 4, 5}) cexA1).all_shifts.length =
      (initState ({1, 2, 3, 4, 5} : Finset ℕ)).all_shifts.length + 1 :=
  (stepAction_emission cexCtx (initState {1, 2, 3, 4, 5}) cexA1 rfl rfl).1.mpr
    ⟨rfl, Or.inl (by
      show (0 : ℚ) < parse_clock ['P', 'T', '1', '2', 'M', '0', '0', '.', '0', '0', 'S'] -
        parse_clock ['P', 'T', '0', '0', 'M', '3', '0', '.', '0', '0', 'S']
      rw [pc720, pc30]
      norm_num)⟩

/-- C1 counterexample: on a stream whose second tracked substitution
comes after a period boundary, the second emitted Shift stores duration
0 while the duration measured since the snapshot is -570, so an emitted
Shift does not always carry the measured duration. -/
theorem shift_duration_clamp_counterexample :
    (extractShifts cexCtx {1, 2, 3, 4, 5} [cexA1, cexA2]).all_shifts.map Shift.duration_secs =
      [690, 0] ∧
    measuredDuration (extractShifts cexCtx {1, 2, 3, 4, 5} [cexA1]) cexA2 = -570 ∧
    (0 : ℚ) ≠ -570 := by
  have hfields := stepAction_fields cexCtx (initState {1, 2, 3, 4, 5}) cexA1 rfl rfl
  have hdur1 : measuredDuration (initState ({1, 2, 3, 4, 5} : Finset ℕ)) cexA1 = 690 := by
    show parse_clock ['P', 'T', '1', '2', 'M', '0', '0', '.', '0', '0', 'S'] -
      parse_clock ['P', 'T', '0', '0', 'M', '3', '0', '.', '0', '0', 'S'] = 690
    rw [pc720, pc30]
    norm_num
  have h1 : (stepAction cexCtx (initState {1, 2, 3, 4, 5}) cexA1).all_shifts =
      [mkShift cexCtx (initState {1, 2, 3, 4, 5}) cexA1] := by
    rw [stepAction_all_shifts cexCtx (initState {1, 2, 3, 4, 5}) cexA1 rfl rfl,
      if_pos ⟨rfl, Or.inl (by rw [hdur1]; norm_num)⟩]
    rfl
  have hdur2 : measuredDuration (stepAction cexCtx (initState {1, 2, 3, 4, 5}) cexA1) cexA2 =
      -570 := by
    unfold measuredDuration
    rw [hfields.2.2.2.2]
    show parse_clock ['P', 'T', '0', '0', 'M', '3', '0', '.', '0', '0', 'S'] -
      parse_clock ['P', 'T', '1', '0', 'M', '0', '0', '.', '0', '0', 'S'] = -570
    rw [pc30, pc600]
    norm_num
  have hpm2 : measuredPlusMinus cexCtx (stepAction cexCtx (initState {1, 2, 3, 4, 5}) cexA1)
      cexA2 = 3 := by
    unfold measuredPlusMinus
    rw [hfields.2.1, hfields.2.2.1]
    decide
  have hmatch2 : (stepAction cexCtx (initState {1, 2, 3, 4, 5}) cexA1).current_lineup =
      cexCtx.target_lineup := by
    rw [hfields.1]
    decide
  have h2 : (stepAction cexCtx (stepAction cexCtx (initState {1, 2, 3, 4, 5}) cexA1)
      cexA2).all_shifts =
      [mkShift cexCtx (initState {1, 2, 3, 4, 5}) cexA1,
        mkShift cexCtx (stepAction cexCtx (initState {1, 2, 3, 4, 5}) cexA1) cexA2] := by
    rw [stepAction_all_shifts cexCtx (stepAction cexCtx (initState {1, 2, 3, 4, 5}) cexA1)
        cexA2 rfl rfl,
      if_pos ⟨hmatch2, Or.inr (by rw [hpm2]; norm_num)⟩, h1]
    rfl
  have e1 : (mkShift cexCtx (initState {1, 2, 3, 4, 5}) cexA1).duration_secs = 690 := by
    show max 0 (measuredDuration (initState ({1, 2, 3, 4, 5} : Finset ℕ)) cexA1) = 690
    rw [hdur1]
    exact max_eq_right (by norm_num)
  have e2 : (mkShift cexCtx (stepAction cexCtx (initState {1, 2, 3, 4, 5}) cexA1)
      cexA2).duration_secs = 0 := by
    show max 0 (measuredDuration (stepAction cexCtx (initState {1, 2, 3, 4, 5}) cexA1)
      cexA2) = 0
    rw [hdur2]
    exact max_eq_left (by norm_num)
  refine ⟨?_, hdur2, by norm_num⟩
  show (stepAction cexCtx (stepAction cexCtx (initState {1, 2, 3, 4, 5}) cexA1)
    cexA2).all_shifts.map Shift.duration_secs = [690, 0]
  rw [h2]
  simp [e1, e2]

theorem extract_synth_shifts :
    (extractShifts synthCtx {1, 2, 3, 4, 5} [synthA1, synthA2]).all_shifts = [synthShift] := by
  have hfields := stepAction_fields synthCtx (initState {1, 2, 3, 4, 5}) synthA1 rfl rfl
  have hpm1 : measuredPlusMinus synthCtx (initState ({1, 2, 3, 4, 5} : Finset ℕ)) synthA1 =
      10 := by decide
  have hdur1 : measuredDuration (initState ({1, 2, 3, 4, 5} : Finset ℕ)) synthA1 = 720 := by
    show parse_clock ['P', 'T', '1', '2', 'M', '0', '0', '.', '0', '0', 'S'] -
      parse_clock ['P', 'T', '0', '0', 'M', '0', '0', '.', '0', '0', 'S'] = 720
    rw [pc720, pc0]
    norm_num
  have hmk : mkShift synthCtx (initState {1, 2, 3, 4, 5}) synthA1 = synthShift := by
    simp only [mkShift, synthShift, Shift.mk.injEq]
    refine ⟨rfl, rfl, rfl, rfl, rfl, ?_, ?_, ?_, ?_⟩
    · rw [hdur1]
      exact max_eq_right (by norm_num)
    · exact hpm1
    · decide
    · decide
  have h1 : (stepAction synthCtx (initState {1, 2, 3, 4, 5}) synthA1).all_shifts =
      [synthShift] := by
    rw [stepAction_all_shifts synthCtx (initState {1, 2, 3, 4, 5}) synthA1 rfl rfl,
      if_pos ⟨rfl, Or.inr (by rw [hpm1]; norm_num)⟩, hmk]
    rfl
  have hneg : ¬ ((stepAction synthCtx (initState {1, 2, 3, 4, 5}) synthA1).current_lineup =
      synthCtx.target_lineup ∧
      (0 < measuredDuration (stepAction synthCtx (initState {1, 2, 3, 4, 5}) synthA1) synthA2 ∨
        measuredPlusMinus synthCtx (stepAction synthCtx (initState {1, 2, 3, 4, 5}) synthA1)
          synthA2 ≠ 0)) := by
    intro hc
    have hl := hc.1
    rw [hfields.1] at hl
    exact absurd hl (by decide)
  show (stepAction synthCtx (stepAction synthCtx (initState {1, 2, 3, 4, 5}) synthA1)
    synthA2).all_shifts = [synthShift]
  rw [stepAction_all_shifts synthCtx (stepAction synthCtx (initState {1, 2, 3, 4, 5}) synthA1)
    synthA2 rfl rfl, if_neg hneg, h1]

/-- C2: the synthetic two-substitution game in which the tracked lineup
matches the target for the whole first period (snapshot at period 1,
full clock, 0-0) while the team scores 10 unanswered points produces
exactly one Shift, and it has plus_minus 10 and duration_secs 720. -/
theorem synthetic_game_one_shift :
    (extractShifts synthCtx {1, 2, 3, 4, 5} [synthA1, synthA2]).all_shifts = [synthShift] ∧
    synthShift.plus_minus = 10 ∧ synthShift.duration_secs = 720 :=
  ⟨extract_synth_shifts, rfl, rfl⟩

theorem stepAction_shifts_cases (ctx : GameCtx) (st : ExtractState) (a : Action) :
    ∀ s ∈ (stepAction ctx st a).all_shifts,
      s ∈ st.all_shifts ∨ s.duration_secs = max 0 (measuredDuration st a) := by
  intro s hs
  by_cases h1 : a.teamTricode = ctx.team_abbrev ∧ a.actionType = "substitution"
  · rw [stepAction_all_shifts ctx st a h1.1 h1.2] at hs
    by_cases h2 : st.current_lineup = ctx.target_lineup ∧
        (0 < measuredDuration st a ∨ measuredPlusMinus ctx st a ≠ 0)
    · rw [if_pos h2] at hs
      rcases List.mem_append.mp hs with h | h
      · exact Or.inl h
      · right
        rw [List.mem_singleton.mp h]
        rfl
    · rw [if_neg h2] at hs
      exact Or.inl hs
  · have hskip : stepAction ctx st a = st := by
      unfold stepAction
      rw [if_neg h1]
    rw [hskip] at hs
    exact Or.inl hs

/-- C5: every Shift emitted by the Shift Extractor satisfies
duration_secs >= 0, for every game context, starting lineup and action
stream — including streams whose raw clock difference would be
negative, thanks to the clamp applied when the record is built. -/
theorem shift_duration_nonneg (ctx : GameCtx) (starters : Finset ℕ) (actions : List Action) :
    ∀ s ∈ (extractShifts ctx starters actions).all_shifts, 0 ≤ s.duration_secs := by
  have aux : ∀ (acts : List Action) (st : ExtractState),
      (∀ s ∈ st.all_shifts, 0 ≤ s.duration_secs) →
      ∀ s ∈ (acts.foldl (stepAction ctx) st).all_shifts, 0 ≤ s.duration_secs := by
    intro acts
    induction acts with
    | nil =>
      intro st h
      simpa using h
    | cons a rest ih =>
      intro st h s hs
      refine ih (stepAction ctx st a) ?_ s hs
      intro t ht
      rcases stepAction_shifts_cases ctx st a t ht with h1 | h1
      · exact h t h1
      · rw [h1]
        exact le_max_left 0 _
  refine aux actions (initState starters) ?_
  intro s hs
  simp [initState] at hs

/-- Witness for shift_duration_nonneg: the synthetic game's single
emitted shift has nonnegative duration. -/
theorem shift_duration_nonneg_witness : 0 ≤ synthShift.duration_secs :=
  shift_duration_nonneg synthCtx {1, 2, 3, 4, 5} [synthA1, synthA2] synthShift
    (by rw [extract_synth_shifts]; exact List.mem_singleton.mpr rfl)

/-! ## Lemmas about the game selector -/

theorem mem_foldl_inter (rest : List (Finset ℕ)) (init : Finset ℕ) (g : ℕ) :
    g ∈ rest.foldl (fun a b => a ∩ b) init ↔ g ∈ init ∧ ∀ t ∈ rest, g ∈ t := by
  induction rest generalizing init with
  | nil => simp
  | cons s rest ih =>
    simp only [List.foldl_cons]
    rw [ih]
    constructor
    · rintro ⟨h1, h2⟩
      have := Finset.mem_inter.mp h1
      exact ⟨this.1, fun t ht => by
        rcases List.mem_cons.mp ht with rfl | ht
        · exact this.2
        · exact h2 t ht⟩
    · rintro ⟨h1, h2⟩
      exact ⟨Finset.mem_inter.mpr ⟨h1, h2 s (by simp)⟩, fun t ht => h2 t (by simp [ht])⟩

theorem mem_commonGames {l : List (Finset ℕ)} (hl : l ≠ []) (g : ℕ) :
    g ∈ commonGames l ↔ ∀ t ∈ l, g ∈ t := by
  cases l with
  | nil => exact absurd rfl hl
  | cons s rest =>
    show g ∈ rest.foldl (fun a b => a ∩ b) s ↔ _
    rw [mem_foldl_inter]
    constructor
    · rintro ⟨h1, h2⟩ t ht
      rcases List.mem_cons.mp ht with rfl | ht
      · exact h1
      · exact h2 t ht
    · intro h
      exact ⟨h s (by simp), fun t ht => h t (by simp [ht])⟩

theorem commonGames_perm {l l' : List (Finset ℕ)} (h : l.Perm l') :
    commonGames l = commonGames l' := by
  cases l with
  | nil =>
    have hl' : l' = [] := h.symm.eq_nil
    subst hl'
    rfl
  | cons s rest =>
    have hl : (s :: rest : List (Finset ℕ)) ≠ [] := by simp
    have hl' : l' ≠ [] := by
      intro he
      subst he
      exact absurd h.eq_nil (by simp)
    ext g
    rw [mem_commonGames hl g, mem_commonGames hl' g]
    constructor
    · intro hall t ht
      exact hall t (h.mem_iff.mpr ht)
    · intro hall t ht
      exact hall t (h.mem_iff.mp ht)

/-- C6: for five per-player game-identifier sets supplied in any order,
a game is a candidate iff it belongs to all five sets; the candidate set
does not depend on the order of the five sets; and an empty intersection
is reported as a structured error value while a nonempty intersection is
returned to the caller. -/
theorem gameSelector_spec (s1 s2 s3 s4 s5 : Finset ℕ) (l : List (Finset ℕ))
    (hperm : l.Perm [s1, s2, s3, s4, s5]) :
    (∀ g, g ∈ commonGames l ↔ (g ∈ s1 ∧ g ∈ s2 ∧ g ∈ s3 ∧ g ∈ s4 ∧ g ∈ s5)) ∧
    commonGames l = commonGames [s1, s2, s3, s4, s5] ∧
    (commonGames l = ∅ →
      gameSelector l = Except.error "No games found where all 5 players played together") ∧
    (commonGames l ≠ ∅ → gameSelector l = Except.ok (commonGames l)) := by
  refine ⟨?_, commonGames_perm hperm, ?_, ?_⟩
  · intro g
    rw [commonGames_perm hperm, mem_commonGames (by simp) g]
    simp [List.forall_mem_cons]
  · intro h0
    unfold gameSelector
    rw [if_pos h0]
  · intro h0
    unfold gameSelector
    rw [if_neg h0]

/-- Witness for gameSelector_spec: the five concrete per-player sets,
supplied shuffled, select their three common games. -/
theorem gameSelector_spec_witness :
    gameSelector [gamesP2, gamesP1, gamesP3, gamesP5, gamesP4] =
      Except.ok (commonGames [gamesP2, gamesP1, gamesP3, gamesP5, gamesP4]) :=
  (gameSelector_spec gamesP1 gamesP2 gamesP3 gamesP4 gamesP5
    [gamesP2, gamesP1, gamesP3, gamesP5, gamesP4] (by decide)).2.2.2 (by decide)

/-! ## Lemmas about the shift aggregator -/

/-- C7: every shift list whose differentials are [+5, -3, 0] produces a
summary with total 3, one positive, one negative, one even shift,
pct_positive 33.3 and total_plus_minus 2. -/
theorem summary_example (shifts : List Shift)
    (h : shifts.map Shift.plus_minus = [5, -3, 0]) :
    (buildSummary shifts).total_shifts = 3 ∧
    (buildSummary shifts).positive_shifts = 1 ∧
    (buildSummary shifts).negative_shifts = 1 ∧
    (buildSummary shifts).even_shifts = 1 ∧
    (buildSummary shifts).pct_positive = 333 / 10 ∧
    (buildSummary shifts).total_plus_minus = 2 := by
  have hlen : shifts.length = 3 := by
    have := congrArg List.length h
    simpa using this
  have hne : shifts ≠ [] := by
    intro he
    rw [he] at hlen
    exact absurd hlen (by decide)
  have hpos : shifts.countP (fun s => decide (0 < s.plus_minus)) = 1 := by
    have h2 := List.countP_map (fun z : ℤ => decide (0 < z)) Shift.plus_minus shifts
    rw [h] at h2
    have h3 : List.countP (fun z : ℤ => decide (0 < z)) [5, -3, 0] = 1 := by decide
    rw [h3] at h2
    exact h2.symm
  have hneg : shifts.countP (fun s => decide (s.plus_minus < 0)) = 1 := by
    have h2 := List.countP_map (fun z : ℤ => decide (z < 0)) Shift.plus_minus shifts
    rw [h] at h2
    have h3 : List.countP (fun z : ℤ => decide (z < 0)) [5, -3, 0] = 1 := by decide
    rw [h3] at h2
    exact h2.symm
  have heven : shifts.countP (fun s => decide (s.plus_minus = 0)) = 1 := by
    have h2 := List.countP_map (fun z : ℤ => decide (z = 0)) Shift.plus_minus shifts
    rw [h] at h2
    have h3 : List.countP (fun z : ℤ => decide (z = 0)) [5, -3, 0] = 1 := by decide
    rw [h3] at h2
    exact h2.symm
  refine ⟨hlen, hpos, hneg, heven, ?_, ?_⟩
  · show (if shifts = [] then (0 : ℚ)
      else roundTo (((shifts.countP (fun s => decide (0 < s.plus_minus)) : ℚ) /
        shifts.length) * 100) 1) = 333 / 10
    rw [if_neg hne, hpos, hlen]
    unfold roundTo
    have hq : (((1 : ℕ) : ℚ) / ((3 : ℕ) : ℚ) * 100) * 10 ^ (1 : ℕ) = 1000 / 3 := by
      push_cast
      ring
    rw [hq, round_eq]
    have hfloor : ⌊(1000 : ℚ) / 3 + 1 / 2⌋ = 333 := by
      rw [Int.floor_eq_iff]
      constructor <;> norm_num
    rw [hfloor]
    norm_num
  · show (shifts.map Shift.plus_minus).sum = 2
    rw [h]
    decide

/-- Witness for summary_example on the concrete three-shift list. -/
theorem summary_example_witness :
    (buildSummary exampleShifts).total_shifts = 3 ∧
    (buildSummary exampleShifts).positive_shifts = 1 ∧
    (buildSummary exampleShifts).negative_shifts = 1 ∧
    (buildSummary exampleShifts).even_shifts = 1 ∧
    (buildSummary exampleShifts).pct_positive = 333 / 10 ∧
    (buildSummary exampleShifts).total_plus_minus = 2 :=
  summary_example exampleShifts rfl

/-- C8: on an empty accumulated shift list the aggregator's summary
reports zero counts and zero percentages; the percentage division is
guarded, so the computation is total and never divides by zero. -/
theorem summary_empty :
    (buildSummary []).total_shifts = 0 ∧ (buildSummary []).positive_shifts = 0 ∧
    (buildSummary []).negative_shifts = 0 ∧ (buildSummary []).even_shifts = 0 ∧
    (buildSummary []).pct_positive = 0 ∧ (buildSummary []).total_plus_minus = 0 ∧
    (buildSummary []).total_duration_mins = 0 ∧ byOpponent [] = [] := by
  refine ⟨rfl, rfl, rfl, rfl, rfl, rfl, ?_, rfl⟩
  show roundTo ((List.map Shift.duration_secs []).sum / 60) 1 = 0
  norm_num [roundTo]

/-! ## Lemmas about the batch driver -/

theorem runGames_aux (games : List GameOutcome) (acc : List Shift × List String) :
    games.foldl (fun acc g => (acc.1 ++ g.shifts, acc.2 ++ g.err.toList)) acc =
      (acc.1 ++ (games.map GameOutcome.shifts).flatten,
        acc.2 ++ games.filterMap GameOutcome.err) := by
  induction games generalizing acc with
  | nil => simp
  | cons g rest ih =>
    simp only [List.foldl_cons]
    rw [ih]
    cases hge : g.err with
    | none => simp [hge, List.filterMap_cons, Option.toList, List.append_assoc]
    | some e => simp [hge, List.filterMap_cons, Option.toList, List.append_assoc]

/-- C9: per-game failures never abort the batch computation: the
collected shift list joins every game's contribution in order (so every
successfully processed game's shifts are all present, and games after a
failure are still processed), the failed games' messages are collected
in order, and the reported error list is capped at five entries. -/
theorem runGames_spec (games : List GameOutcome) :
    (runGames games).1 = (games.map GameOutcome.shifts).flatten ∧
    (runGames games).2 = games.filterMap GameOutcome.err ∧
    (∀ g ∈ games, g.err = none → ∀ s ∈ g.shifts, s ∈ (runGames games).1) ∧
    (∀ l, reportedErrors (runGames games).2 = some l → l.length ≤ 5) := by
  have h := runGames_aux games ([], [])
  simp only [List.nil_append] at h
  have h1 : (runGames games).1 = (games.map GameOutcome.shifts).flatten := congrArg Prod.fst h
  have h2 : (runGames games).2 = games.filterMap GameOutcome.err := congrArg Prod.snd h
  refine ⟨h1, h2, ?_, ?_⟩
  · intro g hg hnone s hs
    rw [h1, List.mem_flatten]
    exact ⟨g.shifts, List.mem_map_of_mem GameOutcome.shifts hg, hs⟩
  · intro l hl
    unfold reportedErrors at hl
    by_cases he : (runGames games).2 = []
    · rw [if_pos he] at hl
      exact absurd hl (by simp)
    · rw [if_neg he] at hl
      have hl' : ((runGames games).2).take 5 = l := Option.some_inj.mp hl
      rw [← hl', List.length_take]
      exact min_le_left _ _

/-- Witness for runGames_spec on the concrete batch in which the second
game fails between two successful games. -/
theorem runGames_spec_witness :
    synthShift ∈ (runGames exampleOutcomes).1 ∧
    reportedErrors (runGames exampleOutcomes).2 = some ["Game 0022600005: timeout"] ∧
    (["Game 0022600005: timeout"] : List String).length ≤ 5 := by
  have hspec := runGames_spec exampleOutcomes
  refine ⟨hspec.2.2.1 ⟨[synthShift], none⟩ (by exact List.mem_cons_self _ _) rfl synthShift
    (List.mem_cons_self _ _), ?_, by decide⟩
  rw [show (runGames exampleOutcomes).2 = exampleOutcomes.filterMap GameOutcome.err from
    hspec.2.1]
  rfl

/-! ## Lemmas about the per-opponent breakdown -/

theorem keys_addShift (acc : List (String × OppStat)) (s : Shift) :
    (addShiftToStats acc s).map Prod.fst =
      if s.opponent ∈ acc.map Prod.fst then acc.map Prod.fst
      else acc.map Prod.fst ++ [s.opponent] := by
  induction acc with
  | nil => simp [addShiftToStats]
  | cons p rest ih =>
    obtain ⟨o, st⟩ := p
    by_cases ho : o = s.opponent
    · subst ho
      simp [addShiftToStats]
    · simp only [addShiftToStats, if_neg ho, List.map_cons]
      rw [ih]
      by_cases hmem : s.opponent ∈ rest.map Prod.fst
      · rw [if_pos hmem, if_pos (by simp [hmem])]
      · rw [if_neg hmem, if_neg (by simp [hmem]; exact fun h => ho h.symm)]
        simp

theorem sumShifts_addShift (acc : List (String × OppStat)) (s : Shift) :
    ((addShiftToStats acc s).map (fun p => p.2.shifts)).sum =
      (acc.map (fun p => p.2.shifts)).sum + 1 := by
  induction acc with
  | nil => simp [addShiftToStats, bumpOpp]
  | cons p rest ih =>
    obtain ⟨o, st⟩ := p
    by_cases ho : o = s.opponent
    · simp only [addShiftToStats, if_pos ho, List.map_cons, List.sum_cons, bumpOpp]
      omega
    · simp only [addShiftToStats, if_neg ho, List.map_cons, List.sum_cons, ih]
      omega

theorem sumPM_addShift (acc : List (String × OppStat)) (s : Shift) :
    ((addShiftToStats acc s).map (fun p => p.2.plus_minus)).sum =
      (acc.map (fun p => p.2.plus_minus)).sum + s.plus_minus := by
  induction acc with
  | nil => simp [addShiftToStats, bumpOpp]
  | cons p rest ih =>
    obtain ⟨o, st⟩ := p
    by_cases ho : o = s.opponent
    · simp only [addShiftToStats, if_pos ho, List.map_cons, List.sum_cons, bumpOpp]
      omega
    · simp only [addShiftToStats, if_neg ho, List.map_cons, List.sum_cons, ih]
      omega

theorem keys_nodup_addShift (acc : List (String × OppStat)) (s : Shift)
    (h : (acc.map Prod.fst).Nodup) : ((addShiftToStats acc s).map Prod.fst).Nodup := by
  rw [keys_addShift]
  by_cases hmem : s.opponent ∈ acc.map Prod.fst
  · rw [if_pos hmem]
    exact h
  · rw [if_neg hmem]
    exact List.nodup_append.mpr ⟨h, List.nodup_singleton _, by simpa using hmem⟩

theorem oppStats_fold_keys (shifts : List Shift) :
    ∀ (acc : List (String × OppStat)) (o : String),
      o ∈ (shifts.foldl addShiftToStats acc).map Prod.fst ↔
        o ∈ acc.map Prod.fst ∨ o ∈ shifts.map Shift.opponent := by
  induction shifts with
  | nil =>
    intro acc o
    simp
  | cons s rest ih =>
    intro acc o
    simp only [List.foldl_cons, List.map_cons, List.mem_cons]
    rw [ih, keys_addShift]
    by_cases hmem : s.opponent ∈ acc.map Prod.fst
    · rw [if_pos hmem]
      constructor
      · rintro (h | h)
        · exact Or.inl h
        · exact Or.inr (Or.inr h)
      · rintro (h | h | h)
        · exact Or.inl h
        · exact Or.inl (h ▸ hmem)
        · exact Or.inr h
    · rw [if_neg hmem]
      simp only [List.mem_append, List.mem_singleton]
      tauto

theorem oppStats_fold_nodup (shifts : List Shift) :
    ∀ acc : List (String × OppStat), (acc.map Prod.fst).Nodup →
      ((shifts.foldl addShiftToStats acc).map Prod.fst).Nodup := by
  induction shifts with
  | nil =>
    intro acc h
    simpa using h
  | cons s rest ih =>
    intro acc h
    exact ih (addShiftToStats acc s) (keys_nodup_addShift acc s h)

theorem oppStats_fold_sumShifts (shifts : List Shift) :
    ∀ acc : List (String × OppStat),
      ((shifts.foldl addShiftToStats acc).map (fun p => p.2.shifts)).sum =
        (acc.map (fun p => p.2.shifts)).sum + shifts.length := by
  induction shifts with
  | nil =>
    intro acc
    simp
  | cons s rest ih =>
    intro acc
    simp only [List.foldl_cons, List.length_cons]
    rw [ih, sumShifts_addShift]
    omega

theorem oppStats_fold_sumPM (shifts : List Shift) :
    ∀ acc : List (String × OppStat),
      ((shifts.foldl addShiftToStats acc).map (fun p => p.2.plus_minus)).sum =
        (acc.map (fun p => p.2.plus_minus)).sum + (shifts.map Shift.plus_minus).sum := by
  induction shifts with
  | nil =>
    intro acc
    simp
  | cons s rest ih =>
    intro acc
    simp only [List.foldl_cons, List.map_cons, List.sum_cons]
    rw [ih, sumPM_addShift]
    omega

/-- C10: for every non-empty shift list the by_opponent breakdown
partitions the summary: its entries' opponents are exactly the distinct
opponents of the shift list (one entry each), the entries' shift counts
sum to total_shifts and the entries' plus_minus values sum to
total_plus_minus. -/
theorem byOpponent_partition (shifts : List Shift) (_hne : shifts ≠ []) :
    ((byOpponent shifts).map OppEntry.opponent).Nodup ∧
    (∀ o, o ∈ (byOpponent shifts).map OppEntry.opponent ↔ o ∈ shifts.map Shift.opponent) ∧
    ((byOpponent shifts).map OppEntry.shifts).sum = (buildSummary shifts).total_shifts ∧
    ((byOpponent shifts).map OppEntry.plus_minus).sum =
      (buildSummary shifts).total_plus_minus := by
  have hperm : (List.insertionSort (fun x y => x.2.plus_minus ≤ y.2.plus_minus)
      (oppStats shifts)).Perm (oppStats shifts) := List.perm_insertionSort _ _
  have hkeys : (byOpponent shifts).map OppEntry.opponent =
      (List.insertionSort (fun x y => x.2.plus_minus ≤ y.2.plus_minus)
        (oppStats shifts)).map Prod.fst := by
    simp [byOpponent, List.map_map, Function.comp]
  have hcnt : (byOpponent shifts).map OppEntry.shifts =
      (List.insertionSort (fun x y => x.2.plus_minus ≤ y.2.plus_minus)
        (oppStats shifts)).map (fun p => p.2.shifts) := by
    simp [byOpponent, List.map_map, Function.comp]
  have hpm : (byOpponent shifts).map OppEntry.plus_minus =
      (List.insertionSort (fun x y => x.2.plus_minus ≤ y.2.plus_minus)
        (oppStats shifts)).map (fun p => p.2.plus_minus) := by
    simp [byOpponent, List.map_map, Function.comp]
  refine ⟨?_, ?_, ?_, ?_⟩
  · rw [hkeys]
    exact ((hperm.map Prod.fst).nodup_iff).mpr (oppStats_fold_nodup shifts [] (by simp))
  · intro o
    rw [hkeys, (hperm.map Prod.fst).mem_iff]
    have h := oppStats_fold_keys shifts [] o
    simpa [oppStats] using h
  · rw [hcnt, (hperm.map (fun p => p.2.shifts)).sum_eq]
    have h := oppStats_fold_sumShifts shifts []
    show ((oppStats shifts).map (fun p => p.2.shifts)).sum = shifts.length
    simpa [oppStats] using h
  · rw [hpm, (hperm.map (fun p => p.2.plus_minus)).sum_eq]
    have h := oppStats_fold_sumPM shifts []
    show ((oppStats shifts).map (fun p => p.2.plus_minus)).sum = (shifts.map Shift.plus_minus).sum
    simpa [oppStats] using h

/-- Witness for byOpponent_partition on the concrete three-shift list
spanning two opponents. -/
theorem byOpponent_partition_witness :
    ((byOpponent exampleShifts).map OppEntry.shifts).sum =
      (buildSummary exampleShifts).total_shifts ∧
    ((byOpponent exampleShifts).map OppEntry.plus_minus).sum =
      (buildSummary exampleShifts).total_plus_minus := by
  have h := byOpponent_partition exampleShifts (by exact List.cons_ne_nil _ _)
  exact ⟨h.2.2.1, h.2.2.2⟩
